import Mathlib

/-!
Verification of the photo quality scoring engine
(src/components/analysis/photo-analyzer.tsx) against its specification.

The TypeScript source is shallowly embedded below.  JavaScript `number`
arithmetic is idealised as exact rational arithmetic (ℚ); the one genuinely
irrational operation, `Math.sqrt` in the exposure analyzer, is embedded as
`Real.sqrt`.  A JavaScript computation that produces `NaN` (division `0/0`,
which then propagates through `Math.min`/`Math.max`) is embedded as
`Option.none`: the affected analyzers return `Option ℚ`, with `none`
standing for the NaN outcome.
-/

set_option allowUnsafeReducibility true
attribute [local semireducible] Rat.add Rat.mul Rat.inv Rat.sub Rat.ofScientific

namespace PhotoAnalyzer

/-- A decoded raster image: width, height, and an RGB lookup by flattened
pixel index (row-major, `i = y * width + x`).  The alpha channel is ignored
by every analyzer in the source, so it is not modelled. -/
structure RasterImage where
  width : ℕ
  height : ℕ
  pix : ℕ → ℕ × ℕ × ℕ

/-- JavaScript `Math.round` (round half toward +∞). -/
def jsRound (q : ℚ) : ℤ := ⌊q + 1/2⌋

/-- Embeds `Math.round(0.299*r + 0.587*g + 0.114*b)` from the grayscale
conversion loops.  For natural `r g b`, `round((299r+587g+114b)/1000)`
equals `(299r+587g+114b+500)/1000` in natural floor division, which keeps
the whole pixel pipeline inside ℕ. -/
def lumaAt (img : RasterImage) (i : ℕ) : ℕ :=
  let p := img.pix i
  (299 * p.1 + 587 * p.2.1 + 114 * p.2.2 + 500) / 1000

/-- Number of pixels `width * height` of the raster. -/
def pixelCount (img : RasterImage) : ℕ := img.width * img.height

/-! ## detectBlur (photo-analyzer.tsx lines 196-246) -/

/-- The Laplacian filter response at index `idx`
(`-1` on the eight neighbours, `8` at the centre), as written at
lines 214-217 of the source.  Only evaluated at interior indices, where
the flattened neighbour offsets `idx ± width ± 1` are the true 8-neighbours
and the natural subtractions cannot underflow. -/
def lapAt (img : RasterImage) (idx : ℕ) : ℤ :=
  let w := img.width
  let g : ℕ → ℤ := fun j => (lumaAt img j : ℤ);
  -1 * g (idx - w - 1) + -1 * g (idx - w) + -1 * g (idx - w + 1) +
    -1 * g (idx - 1) + 8 * g idx + -1 * g (idx + 1) +
    -1 * g (idx + w - 1) + -1 * g (idx + w) + -1 * g (idx + w + 1)

/-- The indices the variance loop of `detectBlur` does not `continue` past:
the source skips `i` when
`i % width === 0 || i % width === width - 1 || i < width || i >= (height-1)*width`. -/
def blurInterior (img : RasterImage) : List ℕ :=
  (List.range (pixelCount img)).filter (fun i =>
    !(i % img.width == 0 || i % img.width == img.width - 1 ||
      i < img.width || (img.height - 1) * img.width ≤ i))

/-- `detectBlur`: Laplacian-variance sharpness score.  With `count = 0`
(no interior pixels, i.e. width or height below 3) the source computes
`mean = 0/0 = NaN`, and the NaN propagates through
`Math.min(1, Math.max(0, variance/1000))`; that branch is `none` here. -/
def detectBlur (img : RasterImage) : Option ℚ :=
  let l := blurInterior img
  let count : ℕ := l.length
  let sum : ℤ := (l.map (lapAt img)).sum
  let sumSquared : ℤ := (l.map (fun i => lapAt img i * lapAt img i)).sum
  if count = 0 then none
  else
    let mean : ℚ := (sum : ℚ) / (count : ℚ)
    let variance : ℚ := (sumSquared : ℚ) / (count : ℚ) - mean * mean
    some (min 1 (max 0 (variance / 1000)))

/-! ## detectNoise (photo-analyzer.tsx lines 249-338) -/

/-- The values taken by a `for (v = 0; v < bound; v += step)` loop counter
(natural subtraction makes `bound = 0` model the negative JS bound, where
the loop body never runs). -/
def stepped (bound step : ℕ) : List ℕ :=
  (List.range ((bound + step - 1) / step)).map (fun k => k * step)

/-- `calculateBlockVariance`: for the 8×8 block with top-left `(x, y)`,
returns `(meanVariance, noiseLevel)` — the population variance of luma in
the block, and the mean absolute difference over all horizontally and
vertically adjacent pixel pairs inside it. -/
def calculateBlockVariance (img : RasterImage) (x y blockSize : ℕ) : ℚ × ℚ :=
  let pixelValues : List ℕ :=
    (List.range blockSize).flatMap (fun j =>
      (List.range blockSize).map (fun i => lumaAt img ((y + j) * img.width + (x + i))))
  let n : ℚ := (pixelValues.length : ℚ)
  let mean : ℚ := ((pixelValues.map (fun v => (v : ℚ))).sum) / n
  let colorVariance : ℚ := ((pixelValues.map (fun v => ((v : ℚ) - mean) ^ 2)).sum) / n
  let horizDiffs : List ℕ :=
    (List.range blockSize).flatMap (fun j =>
      (List.range (blockSize - 1)).map (fun i =>
        ((pixelValues.getD (j * blockSize + i) 0 : ℤ) -
          (pixelValues.getD (j * blockSize + i + 1) 0 : ℤ)).natAbs))
  let vertDiffs : List ℕ :=
    (List.range blockSize).flatMap (fun i =>
      (List.range (blockSize - 1)).map (fun j =>
        ((pixelValues.getD (j * blockSize + i) 0 : ℤ) -
          (pixelValues.getD ((j + 1) * blockSize + i) 0 : ℤ)).natAbs))
  let diffSum : ℕ := horizDiffs.sum + vertDiffs.sum
  let diffCount : ℕ := horizDiffs.length + vertDiffs.length
  let noiseLevel : ℚ := (diffSum : ℚ) / (diffCount : ℚ)
  (colorVariance, noiseLevel)

/-- The `(x, y)` block origins visited by the two nested loops of
`detectNoise`: `for (y = 0; y < height - blockSize; y += blockSize)`
outer, same for `x` with `width`, `blockSize = 8`. -/
def noiseBlocks (img : RasterImage) : List (ℕ × ℕ) :=
  (stepped (img.height - 8) 8).flatMap (fun y =>
    (stepped (img.width - 8) 8).map (fun x => (x, y)))

/-- The body of the block loop of `detectNoise`: on accumulator
`(totalNoise, uniformBlocks)`, add the block's noise level and count it
when `blockVariance.meanVariance < 100`, else leave the accumulator. -/
def noiseStep (img : RasterImage) (acc : ℚ × ℕ) (xy : ℕ × ℕ) : ℚ × ℕ :=
  let bv := calculateBlockVariance img xy.1 xy.2 8
  if bv.1 < 100 then (acc.1 + bv.2, acc.2 + 1) else acc

/-- `detectNoise`: accumulates `(totalNoise, uniformBlocks)` over the
visited blocks, counting a block when its `meanVariance < 100`; returns the
neutral `0.5` when no block qualified, else
`Math.min(1, Math.max(0, 1 - averageNoise / 20))`. -/
def detectNoise (img : RasterImage) : ℚ :=
  let acc : ℚ × ℕ := (noiseBlocks img).foldl (noiseStep img) (0, 0)
  if acc.2 = 0 then 1/2
  else
    let averageNoise : ℚ := acc.1 / (acc.2 : ℚ)
    min 1 (max 0 (1 - averageNoise / 20))

/-! ## analyzeExposure (photo-analyzer.tsx lines 341-385) -/

/-- The luma histogram: `histogram img v` is the final value of
`histogram[v]` after the source's counting loop, i.e. the number of pixels
whose luma is `v`. -/
def histogram (img : RasterImage) (v : ℕ) : ℕ :=
  ((List.range (pixelCount img)).filter (fun i => lumaAt img i == v)).length

/-- `histogram.map(count => count / pixelCount)`. -/
def normHist (img : RasterImage) (v : ℕ) : ℚ :=
  (histogram img v : ℚ) / (pixelCount img : ℚ)

/-- The weighted histogram mean `Σ i * normalizedHistogram[i]` over bins 0-255. -/
def exposureMean (img : RasterImage) : ℚ :=
  ((List.range 256).map (fun (v : ℕ) => (v : ℚ) * normHist img v)).sum

/-- The pre-`Math.sqrt` accumulated value `Σ (i - mean)^2 * normalizedHistogram[i]`. -/
def exposureVariance (img : RasterImage) : ℚ :=
  ((List.range 256).map (fun (v : ℕ) => ((v : ℚ) - exposureMean img) ^ 2 * normHist img v)).sum

/-- `stdDev = Math.sqrt(Σ (i - mean)^2 * nh[i])`; the square root of a
rational is irrational in general, so this one value lives in ℝ. -/
noncomputable def exposureStdDev (img : RasterImage) : ℝ :=
  Real.sqrt (exposureVariance img : ℝ)

/-- `meanScore = 1 - Math.abs(mean - 128) / 128`. -/
def exposureMeanScore (img : RasterImage) : ℚ :=
  1 - |exposureMean img - 128| / 128

/-- `stdDevScore = Math.min(stdDev / 60, 1)`. -/
noncomputable def exposureStdDevScore (img : RasterImage) : ℝ :=
  min (exposureStdDev img / 60) 1

/-- `darkPixelRatio`: sum of the normalized histogram over bins 0-49
(`slice(0, 50)`). -/
def darkPixelRatio (img : RasterImage) : ℚ :=
  ((List.range 50).map (fun v => normHist img v)).sum

/-- `brightPixelRatio`: sum of the normalized histogram over bins 200-255
(`slice(200, 256)`). -/
def brightPixelRatio (img : RasterImage) : ℚ :=
  ((List.range 56).map (fun k => normHist img (200 + k))).sum

/-- `analyzeExposure`: `max(0, (meanScore*0.5 + stdDevScore*0.5) - extremePixelPenalty)`
with `extremePixelPenalty = max(0, darkRatio - 0.1) + max(0, brightRatio - 0.1)`. -/
noncomputable def analyzeExposure (img : RasterImage) : ℝ :=
  let extremePixelPenalty : ℚ :=
    max 0 (darkPixelRatio img - 0.1) + max 0 (brightPixelRatio img - 0.1)
  max 0 (((exposureMeanScore img : ℝ) * 0.5 + exposureStdDevScore img * 0.5) -
    (extremePixelPenalty : ℝ))

/-! ## extractDominantColors and analyzeColorHarmony
(photo-analyzer.tsx lines 424-541) -/

/-- Truncation toward zero, as used by the JavaScript `%` remainder. -/
def ratTrunc (q : ℚ) : ℤ := if q < 0 then ⌈q⌉ else ⌊q⌋

/-- The JavaScript remainder `a % b` on numbers:
`a - b * trunc(a / b)` (sign follows the dividend). -/
def jsMod (a b : ℚ) : ℚ := a - b * (ratTrunc (a / b) : ℚ)

/-- `rgbToHsv` (lines 512-541): hexagonal-projection HSV with
hue in `[0, 360)`, saturation and value in `[0, 1]`.  Returns `(h, s, v)`. -/
def rgbToHsv (r g b : ℕ) : ℚ × ℚ × ℚ :=
  let rq : ℚ := (r : ℚ) / 255
  let gq : ℚ := (g : ℚ) / 255
  let bq : ℚ := (b : ℚ) / 255
  let mx : ℚ := max rq (max gq bq)
  let mn : ℚ := min rq (min gq bq)
  let diff : ℚ := mx - mn
  let h0 : ℚ :=
    if diff = 0 then 0
    else if mx = rq then 60 * jsMod ((gq - bq) / diff) 6
    else if mx = gq then 60 * ((bq - rq) / diff + 2)
    else 60 * ((rq - gq) / diff + 4)
  let h : ℚ := if h0 < 0 then h0 + 360 else h0
  let s : ℚ := if mx = 0 then 0 else diff / mx
  (h, s, mx)

/-- One retained entry of the `colorMap`: occurrence count, the quantized
RGB triple, and its HSV conversion. -/
structure ColorEntry where
  count : ℕ
  r : ℕ
  g : ℕ
  b : ℕ
  hue : ℚ
  sat : ℚ
  val : ℚ
deriving DecidableEq

/-- `Math.floor(v / 16) * 16`: quantization of one channel to 16 buckets. -/
def quantize (v : ℕ) : ℕ := v / 16 * 16

/-- `sampleRate = Math.max(1, Math.floor(pixelCount / 1000))`. -/
def sampleRate (pc : ℕ) : ℕ := max 1 (pc / 1000)

/-- The pixel indices visited by
`for (i = 0; i < pixelCount; i += sampleRate)`:
`0, s, 2s, …` below `pc`, which is `ceil(pc / s)` many. -/
def sampledIndices (pc : ℕ) : List ℕ :=
  (List.range ((pc + sampleRate pc - 1) / sampleRate pc)).map (fun k => k * sampleRate pc)

/-- One iteration of the sampling loop of `extractDominantColors`: look the
quantized key up in the insertion-ordered map; bump its count if present
(JS mutates the stored entry, keeping insertion order), else append a fresh
entry with count 1. -/
def colorMapStep (img : RasterImage) (m : List ((ℕ × ℕ × ℕ) × ColorEntry)) (i : ℕ) :
    List ((ℕ × ℕ × ℕ) × ColorEntry) :=
  let p := img.pix i
  let hsv := rgbToHsv p.1 p.2.1 p.2.2
  let key : ℕ × ℕ × ℕ := (quantize p.1, quantize p.2.1, quantize p.2.2)
  if m.any (fun kv => kv.1 == key) then
    m.map (fun kv =>
      if kv.1 == key then (kv.1, { kv.2 with count := kv.2.count + 1 }) else kv)
  else
    m ++ [(key, { count := 1, r := key.1, g := key.2.1, b := key.2.2,
                  hue := hsv.1, sat := hsv.2.1, val := hsv.2.2 })]

/-- The full `colorMap` in insertion order after the sampling loop. -/
def buildColorMap (img : RasterImage) : List ((ℕ × ℕ × ℕ) × ColorEntry) :=
  (sampledIndices (pixelCount img)).foldl (colorMapStep img) []

/-- `extractDominantColors`: the map's values in insertion order, stably
sorted by descending count (`Array.prototype.sort` with comparator
`(a, b) => b.count - a.count` is a stable sort consistent with that total
preorder, which `List.mergeSort` models exactly), then `slice(0, maxColors)`. -/
def extractDominantColors (img : RasterImage) (maxColors : ℕ) : List ColorEntry :=
  (((buildColorMap img).map (fun kv => kv.2)).mergeSort
    (fun a b => decide (b.count ≤ a.count))).take maxColors

/-- The unordered index pairs `(i, j)`, `i < j`, visited by the double loop
of `analyzeColorHarmony`. -/
def huePairs (n : ℕ) : List (ℕ × ℕ) :=
  (List.range n).flatMap (fun i => (List.range' (i + 1) (n - (i + 1))).map (fun j => (i, j)))

/-- The `(complementary, analogous, triadic)` counters accumulated over all
pairs of dominant colors, classified by minimal circular hue distance with
the source's `else if` chain. -/
def harmonyCounts (colors : List ColorEntry) : ℕ × ℕ × ℕ :=
  (huePairs colors.length).foldl (fun acc ij =>
    let d : ColorEntry := { count := 0, r := 0, g := 0, b := 0, hue := 0, sat := 0, val := 0 }
    let hueDiff : ℚ := |(colors.getD ij.1 d).hue - (colors.getD ij.2 d).hue|
    let normalizedHueDiff : ℚ := min hueDiff (360 - hueDiff)
    if 165 < normalizedHueDiff ∧ normalizedHueDiff < 195 then
      (acc.1 + 1, acc.2.1, acc.2.2)
    else if normalizedHueDiff < 30 then
      (acc.1, acc.2.1 + 1, acc.2.2)
    else if 105 < normalizedHueDiff ∧ normalizedHueDiff < 135 then
      (acc.1, acc.2.1, acc.2.2 + 1)
    else acc) (0, 0, 0)

/-- `analyzeColorHarmony`: 0 with fewer than two dominant colors, else
`Math.min(1, (complementary*0.3 + analogous*0.2 + triadic*0.2) / colors.length)`. -/
def analyzeColorHarmony (img : RasterImage) : ℚ :=
  let colors := extractDominantColors img 5
  if 2 ≤ colors.length then
    let c := harmonyCounts colors
    min 1 (((c.1 : ℚ) * 0.3 + (c.2.1 : ℚ) * 0.2 + (c.2.2 : ℚ) * 0.2) / (colors.length : ℚ))
  else 0

/-! ## findEdges and calculateVisualBalance
(photo-analyzer.tsx lines 568-600 and 659-698) -/

/-- The edge map built by `findEdges`: interior pixels are marked when the
gradient magnitude `sqrt(gx^2 + gy^2)` exceeds 30; since `gx, gy` are
integers and `sqrt` is strictly monotone with `30^2 = 900` exact, the test
is embedded as `gx^2 + gy^2 > 900`.  Border entries keep the array's
initial 0 (false). -/
def edgeAt (img : RasterImage) (i : ℕ) : Bool :=
  let w := img.width
  let x := i % w
  let y := i / w
  if 1 ≤ x ∧ x < w - 1 ∧ 1 ≤ y ∧ y < img.height - 1 then
    let gx : ℤ := ((lumaAt img (i - 1) : ℤ) - (lumaAt img (i + 1) : ℤ)).natAbs
    let gy : ℤ := ((lumaAt img (i - w) : ℤ) - (lumaAt img (i + w) : ℤ)).natAbs
    decide (gx * gx + gy * gy > 900)
  else false

/-- `calculateVisualBalance` (lines 659-698): count edge pixels on each
side of the vertical and horizontal midlines, then combine
`min/max` ratios with weight 0.5 each.  When an axis has zero edge pixels
on both sides the source computes `Math.min(0,0)/Math.max(0,0) = 0/0 = NaN`
and the NaN survives the final weighted sum; that outcome is `none`. -/
def calculateVisualBalance (edges : ℕ → Bool) (w h : ℕ) : Option ℚ :=
  let centerX := w / 2
  let centerY := h / 2
  let idxs := List.range (w * h)
  let leftWeight := (idxs.filter (fun i => edges i && decide (i % w < centerX))).length
  let rightWeight := (idxs.filter (fun i => edges i && !decide (i % w < centerX))).length
  let topWeight := (idxs.filter (fun i => edges i && decide (i / w < centerY))).length
  let bottomWeight := (idxs.filter (fun i => edges i && !decide (i / w < centerY))).length
  let horizontalBalance : Option ℚ :=
    if max leftWeight rightWeight = 0 then none
    else some ((min leftWeight rightWeight : ℚ) / (max leftWeight rightWeight : ℚ))
  let verticalBalance : Option ℚ :=
    if max topWeight bottomWeight = 0 then none
    else some ((min topWeight bottomWeight : ℚ) / (max topWeight bottomWeight : ℚ))
  match horizontalBalance, verticalBalance with
  | some hb, some vb => some (hb * 0.5 + vb * 0.5)
  | _, _ => none

/-! ## detectNoise: comparison definitions for the block-coverage claim -/

/-- Follows the specification's words for the noise block set: the
non-overlapping 8×8 blocks partitioning the image, i.e. every full block
with origin `(8i, 8j)`, `8i + 8 ≤ width`, `8j + 8 ≤ height` — unlike the
source loops, whose strict bound `y < height - blockSize` drops the last
full block row and column.  Aggregation is unchanged. -/
def detectNoiseSpec (img : RasterImage) : ℚ :=
  let blocks : List (ℕ × ℕ) :=
    ((List.range (img.height / 8)).map (fun k => k * 8)).flatMap (fun y =>
      ((List.range (img.width / 8)).map (fun k => k * 8)).map (fun x => (x, y)))
  let acc : ℚ × ℕ := blocks.foldl (noiseStep img) (0, 0)
  if acc.2 = 0 then 1/2
  else min 1 (max 0 (1 - (acc.1 / (acc.2 : ℚ)) / 20))

/-- The blocks of `noiseBlocks` that qualify as uniform
(`meanVariance < 100`). -/
def uniformBlockList (img : RasterImage) : List (ℕ × ℕ) :=
  (noiseBlocks img).filter (fun xy => decide ((calculateBlockVariance img xy.1 xy.2 8).1 < 100))

/-- `detectNoise` restated declaratively over `uniformBlockList`: neutral
0.5 when no visited block is uniform, else
`clamp(1 - (mean noise level of the uniform blocks) / 20, 0, 1)`. -/
def detectNoiseAmended (img : RasterImage) : ℚ :=
  if uniformBlockList img = [] then 1/2
  else
    let avg : ℚ :=
      ((uniformBlockList img).map (fun xy => (calculateBlockVariance img xy.1 xy.2 8).2)).sum /
        ((uniformBlockList img).length : ℚ)
    min 1 (max 0 (1 - avg / 20))

/-! ## Score fusion (photo-analyzer.tsx lines 8-40 and 838-861) -/

/-- Result record of `analyzeTechnicalQuality`. -/
structure TechnicalQualityResult where
  blurScore : ℚ
  noiseScore : ℚ
  exposureScore : ℚ
  overallScore : ℚ
deriving DecidableEq

/-- Result record of `analyzeAesthetics`. -/
structure AestheticResult where
  meanScore : ℚ
  scoreDistribution : List ℚ
deriving DecidableEq

/-- One per-face expression probability vector from the external detector. -/
structure ExpressionVector where
  happy : ℚ
  sad : ℚ
  angry : ℚ
  fearful : ℚ
  disgusted : ℚ
  surprised : ℚ
  neutral : ℚ
deriving DecidableEq

/-- Result record of `analyzeFaceExpressions`. -/
structure FaceExpressionResult where
  faceCount : ℕ
  expressions : List ExpressionVector
  bestExpressionScore : ℚ
deriving DecidableEq

/-- Per-photo result record assembled by the batch loop. -/
structure AnalysisResult where
  photoId : ℕ
  technicalQuality : TechnicalQualityResult
  aesthetics : AestheticResult
  faceExpressions : FaceExpressionResult
  overallScore : ℚ
deriving DecidableEq

/-- `calculateOverallScore` (lines 838-861): fuses technical (×0.4),
aesthetic (meanScore/10 ×0.4) and expression (×0.2) scores; with no faces
the expression term is dropped and the two remaining weighted terms are
each halved. -/
def calculateOverallScore (technicalQuality : TechnicalQualityResult)
    (aesthetics : AestheticResult) (faceExpressions : FaceExpressionResult) : ℚ :=
  let technicalScore := technicalQuality.overallScore * 0.4
  let aestheticScore := aesthetics.meanScore / 10 * 0.4
  let faceScore :=
    if faceExpressions.faceCount > 0 then faceExpressions.bestExpressionScore * 0.2 else 0
  if faceExpressions.faceCount > 0 then technicalScore + aestheticScore + faceScore
  else technicalScore * 0.5 + aestheticScore * 0.5

/-! ## The batch loop of startAnalysis (photo-analyzer.tsx lines 98-160) -/

/-- One submitted photo, as the batch loop sees it: its id, and either the
three analyzer results or `none` when the raster provider (or any analyzer)
throws for this photo, which sends the iteration to the `catch` block. -/
structure PhotoSubmission where
  id : ℕ
  outcome : Option (TechnicalQualityResult × AestheticResult × FaceExpressionResult)
deriving DecidableEq

/-- The `AnalysisResult` the loop pushes for a photo, when it succeeds. -/
def mkResult (p : PhotoSubmission) : Option AnalysisResult :=
  p.outcome.map (fun taf =>
    { photoId := p.id
      technicalQuality := taf.1
      aesthetics := taf.2.1
      faceExpressions := taf.2.2
      overallScore := calculateOverallScore taf.1 taf.2.1 taf.2.2 })

/-- The batch loop from position `i` of `n` submitted photos: returns the
pushed results in push order, and the values passed to the progress
callback (`setProgress(Math.round(((i + 1) / photos.length) * 100))`,
which runs only when the photo's `try` block completes). -/
def processFrom (n : ℕ) (i : ℕ) : List PhotoSubmission → List AnalysisResult × List ℤ
  | [] => ([], [])
  | p :: rest =>
    let tail := processFrom n (i + 1) rest
    match mkResult p with
    | some res => (res :: tail.1, jsRound (((i : ℚ) + 1) / (n : ℚ) * 100) :: tail.2)
    | none => tail

/-- `analysisResults.sort((a, b) => b.overallScore - a.overallScore)`:
JavaScript's sort is a stable sort consistent with that comparator, hence
exactly the stable descending-by-score sort `List.mergeSort` computes. -/
def sortResults (l : List AnalysisResult) : List AnalysisResult :=
  l.mergeSort (fun a b => decide (b.overallScore ≤ a.overallScore))

/-- `startAnalysis` over a batch: run the loop, sort by overall score
descending, deliver the ranked list (first component) after having emitted
the progress values (second component). -/
def runBatch (photos : List PhotoSubmission) : List AnalysisResult × List ℤ :=
  let proc := processFrom photos.length 0 photos
  (sortResults proc.1, proc.2)

/-! ## Concrete rasters used in the theorems -/

/-- A 1×1 image, every pixel mid-gray `(128, 128, 128)`. -/
def img1x1 : RasterImage := ⟨1, 1, fun _ => (128, 128, 128)⟩

/-- A 2×2 image, every pixel mid-gray. -/
def img2x2 : RasterImage := ⟨2, 2, fun _ => (128, 128, 128)⟩

/-- A 4×4 image, every pixel mid-gray. -/
def uniformGray4 : RasterImage := ⟨4, 4, fun _ => (128, 128, 128)⟩

/-- The 64×64 flat mid-gray image of the specification's test vector. -/
def uniformGray64 : RasterImage := ⟨64, 64, fun _ => (128, 128, 128)⟩

/-- A 16×16 image that is gray 100 everywhere except that inside the
bottom-right 8×8 block the odd columns are gray 104: the three other full
blocks are exactly uniform, the bottom-right block has luma variance 4
(uniform by the < 100 test) and mean adjacent difference 2. -/
def mixedImg16 : RasterImage :=
  ⟨16, 16, fun i =>
    if 8 ≤ i % 16 ∧ 8 ≤ i / 16 ∧ (i % 16) % 2 = 1 then (104, 104, 104)
    else (100, 100, 100)⟩

/-! ## Theorems for the claims -/

/-- C1: the spec's invariant says no analyzer may emit NaN and that a 1×1
photo must fall back to neutral defaults.  The code violates it: on the 1×1
raster `detectBlur` averages over zero interior pixels, computes `0/0 = NaN`
and returns NaN (embedded as `none`) as `blurScore`, outside [0, 1]. -/
theorem claim1_blur_nan_on_1x1 : detectBlur img1x1 = none := by decide

/-- C2: `calculateOverallScore` equals exactly
`T.overallScore*0.4 + (A.meanScore/10)*0.4 + F.bestExpressionScore*0.2`
when `F.faceCount > 0`, and exactly
`(T.overallScore*0.4)*0.5 + ((A.meanScore/10)*0.4)*0.5` when
`F.faceCount = 0` (the asymmetric no-face halving, not a renormalization). -/
theorem claim2_fusion_formula (t : TechnicalQualityResult) (a : AestheticResult)
    (f : FaceExpressionResult) :
    (0 < f.faceCount →
      calculateOverallScore t a f =
        t.overallScore * 0.4 + a.meanScore / 10 * 0.4 + f.bestExpressionScore * 0.2) ∧
    (f.faceCount = 0 →
      calculateOverallScore t a f =
        t.overallScore * 0.4 * 0.5 + a.meanScore / 10 * 0.4 * 0.5) := by
  constructor
  · intro h
    simp only [calculateOverallScore, if_pos h]
  · intro h
    simp [calculateOverallScore, h]

/-- Fixed technical-quality input for exercising the fusion formula. -/
def tqW : TechnicalQualityResult := ⟨1/2, 1/2, 1/2, 1/2⟩

/-- Fixed aesthetic input for exercising the fusion formula. -/
def aeW : AestheticResult := ⟨5, []⟩

/-- Fixed one-face expression input for exercising the fusion formula. -/
def feW1 : FaceExpressionResult := ⟨1, [], 3/4⟩

/-- Fixed no-face expression input for exercising the fusion formula. -/
def feW0 : FaceExpressionResult := ⟨0, [], 0⟩

/-- C2 witness: both fusion branches evaluated at concrete inputs. -/
theorem claim2_fusion_formula_witness :
    calculateOverallScore tqW aeW feW1 =
      tqW.overallScore * 0.4 + aeW.meanScore / 10 * 0.4 + feW1.bestExpressionScore * 0.2 ∧
    calculateOverallScore tqW aeW feW0 =
      tqW.overallScore * 0.4 * 0.5 + aeW.meanScore / 10 * 0.4 * 0.5 :=
  ⟨(claim2_fusion_formula tqW aeW feW1).1 (by decide),
   (claim2_fusion_formula tqW aeW feW0).2 rfl⟩

/-- C5: the spec requires blur and noise to short-circuit to neutral
defaults below 3×3 usable pixels.  On a 2×2 raster `detectNoise` does
return its neutral 0.5, but `detectBlur` takes the division-by-zero branch
(zero interior pixels) and returns NaN (`none`) instead of a neutral
default. -/
theorem claim5_blur_divides_by_zero_on_2x2 :
    detectBlur img2x2 = none ∧ detectNoise img2x2 = 1/2 := by decide

/-- C6: the claim (and spec) say an axis with zero edge pixels on both
sides contributes balance 1, the 0/0 being special-cased.  The code has no
such special case: on an edge-free edge map (here: the uniform 4×4 image,
whose edge map is everywhere false) both axes compute
`Math.min(0,0)/Math.max(0,0) = 0/0 = NaN` and `calculateVisualBalance`
returns NaN (`none`), not 1. -/
theorem claim6_balance_nan_on_edgeless :
    ((List.range (pixelCount uniformGray4)).filter (fun i => edgeAt uniformGray4 i)).length = 0 ∧
    calculateVisualBalance (edgeAt uniformGray4) 4 4 = none := by decide

/-- C8 counterexample: at `pixelCount = 1001` the stride is
`max(1, floor(1001/1000)) = 1` and the sampling loop visits all 1001
pixels, exceeding the claimed 1000-pixel bound. -/
theorem claim8_sample_bound_counterexample :
    (sampledIndices 1001).length = 1001 ∧ 1000 < (sampledIndices 1001).length := by
  constructor
  · simp [sampledIndices, sampleRate]
  · simp [sampledIndices, sampleRate]

/-- C8 amended: with `stride = max(1, floor(pc/1000))` the sampling loop of
`extractDominantColors` visits at most 1999 pixels (tight at
`pc = 1999`); the claimed 1000 bound fails for `1000 < pc < 2000`. -/
theorem claim8_sample_bound_amended (pc : ℕ) : (sampledIndices pc).length ≤ 1999 := by
  unfold sampledIndices sampleRate
  rw [List.length_map, List.length_range]
  rcases le_or_lt pc 1999 with h | h
  · have h1 : pc / 1000 ≤ 1 := by omega
    rw [Nat.max_eq_left h1]
    simp only [Nat.add_sub_cancel, Nat.div_one]
    exact h
  · have h2 : 1 ≤ pc / 1000 := by omega
    rw [Nat.max_eq_right h2]
    have hq : 0 < pc / 1000 := h2
    have hlt : (pc + pc / 1000 - 1) / (pc / 1000) < 2000 := by
      rw [Nat.div_lt_iff_lt_mul hq]
      omega
    omega

/-- The accumulator loop of `detectNoise`, rephrased: starting from
`(q, n)`, folding over any block list adds the noise levels of the blocks
passing the variance test and counts them. -/
theorem detectNoise_foldl_eq (img : RasterImage) (l : List (ℕ × ℕ)) (q : ℚ) (n : ℕ) :
    l.foldl (noiseStep img) (q, n) =
      (q + ((l.filter (fun xy =>
          decide ((calculateBlockVariance img xy.1 xy.2 8).1 < 100))).map
          (fun xy => (calculateBlockVariance img xy.1 xy.2 8).2)).sum,
        n + (l.filter (fun xy =>
          decide ((calculateBlockVariance img xy.1 xy.2 8).1 < 100))).length) := by
  induction l generalizing q n with
  | nil => simp
  | cons xy rest ih =>
    simp only [List.foldl_cons, List.filter_cons]
    by_cases hc : (calculateBlockVariance img xy.1 xy.2 8).1 < 100
    · rw [show noiseStep img (q, n) xy =
          (q + (calculateBlockVariance img xy.1 xy.2 8).2, n + 1) by
            simp [noiseStep, hc]]
      rw [if_pos (by simpa using hc)]
      rw [ih]
      simp only [List.map_cons, List.sum_cons, List.length_cons]
      refine Prod.ext ?_ ?_
      · simp only
        ring
      · simp only
        omega
    · rw [show noiseStep img (q, n) xy = (q, n) by simp [noiseStep, hc]]
      rw [if_neg (by simpa using hc)]
      exact ih q n

/-- C7 amended: `detectNoise` aggregates exactly over the blocks of
`noiseBlocks` — origins `(8i, 8j)` with `8i + 8 < width` and
`8j + 8 < height`, so the last full block row and column are *not*
candidates — a block contributing iff its luma population variance is
below 100; zero qualifying blocks give 0.5, else
`clamp(1 - avgNoiseLevel/20, 0, 1)`. -/
theorem claim7_noise_blocks_amended (img : RasterImage) :
    detectNoise img = detectNoiseAmended img := by
  unfold detectNoise detectNoiseAmended uniformBlockList
  rw [detectNoise_foldl_eq]
  by_cases hnil : (noiseBlocks img).filter (fun xy =>
      decide ((calculateBlockVariance img xy.1 xy.2 8).1 < 100)) = []
  · simp [hnil]
  · have hlen : ((noiseBlocks img).filter (fun xy =>
        decide ((calculateBlockVariance img xy.1 xy.2 8).1 < 100))).length ≠ 0 := by
      simpa [List.length_eq_zero] using hnil
    simp only [if_neg hnil, zero_add]
    rw [if_neg hlen]

set_option maxRecDepth 40000 in
set_option maxHeartbeats 2000000 in
/-- C7 counterexample: on `mixedImg16` (16×16) the partition reading of the
claim — every full 8×8 block is a candidate — yields
`1 - ((0+0+0+2)/4)/20 = 39/40`, but the code's strict loop bounds visit
only the single block at (0,0) and return 1. -/
theorem claim7_block_partition_counterexample :
    detectNoise mixedImg16 = 1 ∧ detectNoiseSpec mixedImg16 = 39/40 ∧
    detectNoise mixedImg16 ≠ detectNoiseSpec mixedImg16 := by decide

/-- C10: when width or height is at most 8 the strict loop bound
`y < height - blockSize` (or `x < width - blockSize`) leaves the nested
loops of `detectNoise` with zero iterations, so no block qualifies and the
neutral 0.5 is returned regardless of pixel content. -/
theorem claim10_small_image_neutral_noise (img : RasterImage)
    (h : img.width ≤ 8 ∨ img.height ≤ 8) : detectNoise img = 1/2 := by
  have hblocks : noiseBlocks img = [] := by
    unfold noiseBlocks
    rcases h with h | h
    · have hw : img.width - 8 = 0 := by omega
      have hx : stepped (img.width - 8) 8 = [] := by rw [hw]; rfl
      rw [hx]
      simp
    · have hh : img.height - 8 = 0 := by omega
      have hy : stepped (img.height - 8) 8 = [] := by rw [hh]; rfl
      rw [hy]
      rfl
  unfold detectNoise
  rw [hblocks]
  rfl

/-- C10 witness: a concrete 4×4 image takes the neutral branch. -/
theorem claim10_small_image_neutral_noise_witness :
    uniformGray4.width ≤ 8 ∧ detectNoise uniformGray4 = 1/2 :=
  ⟨by decide, claim10_small_image_neutral_noise uniformGray4 (Or.inl (by decide))⟩

/-! ## The flat-gray 64×64 test vector (C9) -/

/-- Every pixel of the flat mid-gray image has luma 128. -/
theorem luma_uniformGray64 (i : ℕ) : lumaAt uniformGray64 i = 128 := by
  show (299 * 128 + 587 * 128 + 114 * 128 + 500) / 1000 = 128
  rfl

/-- Every pixel of the flat mid-gray image, as an integer. -/
theorem lumaInt_uniformGray64 (i : ℕ) : ((lumaAt uniformGray64 i : ℤ)) = 128 := by
  rw [luma_uniformGray64]
  rfl

/-- The Laplacian response vanishes everywhere on the flat image. -/
theorem lapAt_uniformGray64 (i : ℕ) : lapAt uniformGray64 i = 0 := by
  simp only [lapAt, lumaInt_uniformGray64]
  norm_num

/-- Zero Laplacian variance: `blurScore = 0` on the flat 64×64 image. -/
theorem blur_uniformGray64 : detectBlur uniformGray64 = some 0 := by
  have hmem : 65 ∈ blurInterior uniformGray64 :=
    List.mem_filter.mpr ⟨List.mem_range.mpr (by norm_num [pixelCount, uniformGray64]), by decide⟩
  have hcount : (blurInterior uniformGray64).length ≠ 0 := by
    simp only [ne_eq, List.length_eq_zero]
    exact List.ne_nil_of_mem hmem
  have hsum : ((blurInterior uniformGray64).map (lapAt uniformGray64)).sum = 0 :=
    List.sum_eq_zero (by
      intro x hx
      rcases List.mem_map.mp hx with ⟨i, _, rfl⟩
      exact lapAt_uniformGray64 i)
  have hsumSq : ((blurInterior uniformGray64).map
      (fun i => lapAt uniformGray64 i * lapAt uniformGray64 i)).sum = 0 :=
    List.sum_eq_zero (by
      intro x hx
      rcases List.mem_map.mp hx with ⟨i, _, rfl⟩
      rw [lapAt_uniformGray64 i, mul_zero])
  unfold detectBlur
  rw [if_neg hcount, hsum, hsumSq]
  norm_num

set_option maxRecDepth 40000 in
/-- Every 8×8 block of the flat image has variance 0 and noise level 0. -/
theorem blockVariance_uniformGray64 (x y : ℕ) :
    calculateBlockVariance uniformGray64 x y 8 = (0, 0) := by
  simp only [calculateBlockVariance, luma_uniformGray64]
  decide

/-- Every visited block is uniform with zero noise: `noiseScore = 1` on the
flat 64×64 image. -/
theorem noise_uniformGray64 : detectNoise uniformGray64 = 1 := by
  have hfilter : (noiseBlocks uniformGray64).filter (fun xy =>
      decide ((calculateBlockVariance uniformGray64 xy.1 xy.2 8).1 < 100)) =
      noiseBlocks uniformGray64 :=
    List.filter_eq_self.mpr (by
      intro xy _
      rw [blockVariance_uniformGray64]
      decide)
  have hsum : ((noiseBlocks uniformGray64).map
      (fun xy => (calculateBlockVariance uniformGray64 xy.1 xy.2 8).2)).sum = 0 :=
    List.sum_eq_zero (by
      intro x hx
      rcases List.mem_map.mp hx with ⟨xy, _, rfl⟩
      rw [blockVariance_uniformGray64])
  have hlen : (noiseBlocks uniformGray64).length = 49 := by decide
  unfold detectNoise
  rw [detectNoise_foldl_eq, hfilter, hsum, hlen]
  norm_num

/-- The raw pixel lookup of the flat image. -/
theorem pix_uniformGray64 (i : ℕ) : uniformGray64.pix i = (128, 128, 128) := rfl

/-- One sampling step of `extractDominantColors` on the flat image: the
quantized key is always `(128,128,128)`, so a map whose keys are all that
key stays a map with that single key, of size `max(size, 1)`. -/
theorem colorMapStep_uniformGray64 (m : List ((ℕ × ℕ × ℕ) × ColorEntry)) (i : ℕ)
    (hm : ∀ kv ∈ m, kv.1 = ((128 : ℕ), (128 : ℕ), (128 : ℕ))) :
    (colorMapStep uniformGray64 m i).length = max m.length 1 ∧
      ∀ kv ∈ colorMapStep uniformGray64 m i, kv.1 = ((128 : ℕ), (128 : ℕ), (128 : ℕ)) := by
  have hstep : colorMapStep uniformGray64 m i =
      if m.any (fun kv => kv.1 == ((128 : ℕ), (128 : ℕ), (128 : ℕ))) then
        m.map (fun kv =>
          if kv.1 == ((128 : ℕ), (128 : ℕ), (128 : ℕ)) then
            (kv.1, { kv.2 with count := kv.2.count + 1 }) else kv)
      else
        m ++ [(((128 : ℕ), (128 : ℕ), (128 : ℕ)),
          { count := 1, r := 128, g := 128, b := 128,
            hue := (rgbToHsv 128 128 128).1, sat := (rgbToHsv 128 128 128).2.1,
            val := (rgbToHsv 128 128 128).2.2 })] := by
    simp only [colorMapStep, pix_uniformGray64, show quantize 128 = 128 from rfl]
  by_cases hany : m.any (fun kv => kv.1 == ((128 : ℕ), (128 : ℕ), (128 : ℕ)))
  · have hne : 1 ≤ m.length := by
      rcases List.any_eq_true.mp hany with ⟨kv, hkv, _⟩
      exact List.length_pos.mpr (List.ne_nil_of_mem hkv)
    rw [hstep, if_pos hany]
    refine ⟨by rw [List.length_map]; omega, ?_⟩
    intro kv hkv
    rcases List.mem_map.mp hkv with ⟨kv0, hkv0, rfl⟩
    by_cases h0 : kv0.1 == ((128 : ℕ), (128 : ℕ), (128 : ℕ))
    · rw [if_pos h0]
      exact hm kv0 hkv0
    · rw [if_neg h0]
      exact hm kv0 hkv0
  · have hnil : m = [] := by
      rcases m with _ | ⟨kv, rest⟩
      · rfl
      · exfalso
        apply hany
        apply List.any_eq_true.mpr
        refine ⟨kv, List.mem_cons_self kv rest, ?_⟩
        rw [hm kv (List.mem_cons_self kv rest)]
        rfl
    subst hnil
    rw [hstep, if_neg (by simp)]
    refine ⟨rfl, ?_⟩
    intro kv hkv
    rcases List.mem_singleton.mp hkv with rfl
    rfl

/-- Folding the sampling loop over any index list keeps the flat image's
color map at a single entry keyed `(128,128,128)`. -/
theorem colorMapFold_uniformGray64 (l : List ℕ) (m : List ((ℕ × ℕ × ℕ) × ColorEntry))
    (hm : ∀ kv ∈ m, kv.1 = ((128 : ℕ), (128 : ℕ), (128 : ℕ))) (hl : m.length ≤ 1) :
    (l.foldl (colorMapStep uniformGray64) m).length ≤ 1 := by
  induction l generalizing m with
  | nil => simpa using hl
  | cons i rest ih =>
    rcases colorMapStep_uniformGray64 m i hm with ⟨hlen, hkeys⟩
    rw [List.foldl_cons]
    exact ih (colorMapStep uniformGray64 m i) hkeys (by omega)

/-- The flat image has a single dominant (quantized) color, so the
fewer-than-two-colors branch fires: `harmonyScore = 0`. -/
theorem harmony_uniformGray64 : analyzeColorHarmony uniformGray64 = 0 := by
  have hbuild : (buildColorMap uniformGray64).length ≤ 1 :=
    colorMapFold_uniformGray64 _ [] (by simp) (by simp)
  have hcolors : (extractDominantColors uniformGray64 5).length ≤ 1 := by
    unfold extractDominantColors
    rw [List.length_take]
    have hperm := (List.mergeSort_perm ((buildColorMap uniformGray64).map (fun kv => kv.2))
      (fun a b => decide (b.count ≤ a.count))).length_eq
    rw [List.length_map] at hperm
    omega
  unfold analyzeColorHarmony
  rw [if_neg (by omega)]

/-- The number of pixels of the flat 64×64 image. -/
theorem pixelCount_uniformGray64 : pixelCount uniformGray64 = 4096 := rfl

/-- The luma histogram of the flat image: 4096 pixels at bin 128, none
elsewhere. -/
theorem histogram_uniformGray64 (v : ℕ) :
    histogram uniformGray64 v = if v = 128 then 4096 else 0 := by
  unfold histogram
  rw [List.filter_congr (fun i _ => by rw [luma_uniformGray64] :
    ∀ i ∈ List.range (pixelCount uniformGray64),
      (lumaAt uniformGray64 i == v) = ((128 : ℕ) == v))]
  by_cases hv : v = 128
  · subst hv
    rw [pixelCount_uniformGray64]
    simp
  · have hfalse : ((128 : ℕ) == v) = false :=
      beq_eq_false_iff_ne.mpr (fun h => hv h.symm)
    rw [hfalse]
    simp [hv]

set_option maxRecDepth 40000 in
/-- The histogram mean of the flat image is exactly 128. -/
theorem exposureMean_uniformGray64 : exposureMean uniformGray64 = 128 := by
  have hterm : ∀ v ∈ List.range 256, (v : ℚ) * normHist uniformGray64 v =
      (v : ℚ) * ((if v = 128 then (4096 : ℚ) else 0) / 4096) := by
    intro v _
    unfold normHist
    rw [histogram_uniformGray64, pixelCount_uniformGray64]
    by_cases hv : v = 128
    · subst hv
      norm_num
    · simp [hv]
  unfold exposureMean
  rw [List.map_congr_left hterm]
  decide

/-- The pre-sqrt exposure variance of the flat image is 0. -/
theorem exposureVariance_uniformGray64 : exposureVariance uniformGray64 = 0 := by
  unfold exposureVariance
  refine List.sum_eq_zero ?_
  intro x hx
  rcases List.mem_map.mp hx with ⟨v, _, rfl⟩
  rw [exposureMean_uniformGray64]
  unfold normHist
  rw [histogram_uniformGray64, pixelCount_uniformGray64]
  by_cases hv : v = 128
  · subst hv
    norm_num
  · simp [hv]

/-- C9: the flat-gray 64×64 test vector: `blurScore = 0`, `noiseScore = 1`,
`harmonyScore = 0`, exposure `meanScore` component 1 and `stdDevScore` 0. -/
theorem claim9_uniform_gray_64 :
    detectBlur uniformGray64 = some 0 ∧
    detectNoise uniformGray64 = 1 ∧
    analyzeColorHarmony uniformGray64 = 0 ∧
    exposureMeanScore uniformGray64 = 1 ∧
    exposureStdDevScore uniformGray64 = 0 := by
  refine ⟨blur_uniformGray64, noise_uniformGray64, harmony_uniformGray64, ?_, ?_⟩
  · unfold exposureMeanScore
    rw [exposureMean_uniformGray64]
    norm_num
  · unfold exposureStdDevScore exposureStdDev
    rw [exposureVariance_uniformGray64]
    norm_num [Real.sqrt_zero]

/-! ## Batch loop lemmas (C3, C4) -/

/-- The results the loop collects are exactly the successfully analyzed
photos, in input order. -/
theorem processFrom_fst (n : ℕ) (ps : List PhotoSubmission) : ∀ i : ℕ,
    (processFrom n i ps).1 = ps.filterMap mkResult := by
  induction ps with
  | nil => intro i; rfl
  | cons p rest ih =>
    intro i
    rw [List.filterMap_cons]
    cases hmk : mkResult p with
    | none => simp only [processFrom, hmk, ih]
    | some res => simp only [processFrom, hmk, ih]

/-- The batch loop splits over list append, the second part starting at the
shifted photo index. -/
theorem processFrom_append (n : ℕ) (xs ys : List PhotoSubmission) : ∀ i : ℕ,
    processFrom n i (xs ++ ys) =
      ((processFrom n i xs).1 ++ (processFrom n (i + xs.length) ys).1,
        (processFrom n i xs).2 ++ (processFrom n (i + xs.length) ys).2) := by
  induction xs with
  | nil => intro i; simp [processFrom]
  | cons p rest ih =>
    intro i
    have harr : i + (p :: rest).length = (i + 1) + rest.length := by
      simp [List.length_cons]
      omega
    rw [List.cons_append]
    cases hmk : mkResult p with
    | none =>
      simp only [processFrom, hmk, ih (i + 1), harr]
    | some res =>
      simp only [processFrom, hmk, ih (i + 1), harr, List.cons_append]

/-- Over a stretch of photos that all succeed, the loop emits one progress
value per photo: `round(100 * (input position + 1) / total)`. -/
theorem processFrom_snd_success (n : ℕ) (ps : List PhotoSubmission)
    (h : ∀ p ∈ ps, p.outcome.isSome) : ∀ i : ℕ,
    (processFrom n i ps).2 =
      (List.range' (i + 1) ps.length).map (fun k => jsRound ((k : ℚ) / (n : ℚ) * 100)) := by
  induction ps with
  | nil => intro i; rfl
  | cons p rest ih =>
    intro i
    have hp : p.outcome.isSome := h p (List.mem_cons_self p rest)
    rcases Option.isSome_iff_exists.mp hp with ⟨taf, htaf⟩
    have hmk : mkResult p = some
        { photoId := p.id
          technicalQuality := taf.1
          aesthetics := taf.2.1
          faceExpressions := taf.2.2
          overallScore := calculateOverallScore taf.1 taf.2.1 taf.2.2 } := by
      unfold mkResult
      rw [htaf]
      rfl
    have hrest := ih (fun q hq => h q (List.mem_cons_of_mem p hq)) (i + 1)
    simp only [processFrom, hmk, hrest, List.length_cons, List.range'_succ, List.map_cons]
    refine congrArg (fun t => t :: _) ?_
    push_cast
    ring_nf

/-- Successful photos yield exactly one collected result each. -/
theorem filterMap_mkResult_length (ps : List PhotoSubmission)
    (h : ∀ p ∈ ps, p.outcome.isSome) :
    (ps.filterMap mkResult).length = ps.length := by
  induction ps with
  | nil => rfl
  | cons p rest ih =>
    have hp : p.outcome.isSome := h p (List.mem_cons_self p rest)
    rcases Option.isSome_iff_exists.mp hp with ⟨taf, htaf⟩
    have hmk : mkResult p = some
        { photoId := p.id
          technicalQuality := taf.1
          aesthetics := taf.2.1
          faceExpressions := taf.2.2
          overallScore := calculateOverallScore taf.1 taf.2.1 taf.2.2 } := by
      unfold mkResult
      rw [htaf]
      rfl
    rw [List.filterMap_cons, hmk, List.length_cons,
      ih (fun q hq => h q (List.mem_cons_of_mem p hq))]
    rfl

/-- A collected result's id is the id of the photo it came from. -/
theorem mkResult_photoId {p : PhotoSubmission} {r : AnalysisResult}
    (h : mkResult p = some r) : r.photoId = p.id := by
  unfold mkResult at h
  cases houtcome : p.outcome with
  | none => rw [houtcome] at h; exact absurd h (by simp)
  | some taf =>
    rw [houtcome] at h
    cases h
    rfl

/-- C3 counterexample batch: two photos, the first fails to load. -/
def failFirstBatch : List PhotoSubmission :=
  [⟨0, none⟩, ⟨1, some (tqW, aeW, feW0)⟩]

/-- C3 counterexample: with N = 2 submitted photos and the first one
failing, the loop emits a single progress value (100, after the second
photo), not the N = 2 claimed invocations: the progress update sits inside
the per-photo `try`, so a skipped photo emits nothing. -/
theorem claim3_progress_counterexample :
    failFirstBatch.length = 2 ∧
    (runBatch failFirstBatch).2 = [100] ∧
    (runBatch failFirstBatch).2.length ≠ failFirstBatch.length := by
  refine ⟨rfl, ?_, ?_⟩ <;> decide

/-- C3 amended: with exactly one failing photo P among N submitted, the
ranked output has N-1 entries and never contains P's id, and the progress
callback runs once per *successful* photo — N-1 times, not N — with value
`round(100 * (input position + 1) / N)`; the failed photo emits no
progress update. -/
theorem claim3_skip_semantics (pre post : List PhotoSubmission) (P : PhotoSubmission)
    (hP : P.outcome = none)
    (hpre : ∀ q ∈ pre, q.outcome.isSome)
    (hpost : ∀ q ∈ post, q.outcome.isSome)
    (hid : ∀ q ∈ pre ++ post, q.id ≠ P.id) :
    (runBatch (pre ++ P :: post)).1.length = (pre ++ P :: post).length - 1 ∧
    P.id ∉ (runBatch (pre ++ P :: post)).1.map (fun r => r.photoId) ∧
    (runBatch (pre ++ P :: post)).2 =
      (List.range' 1 pre.length).map
        (fun k => jsRound ((k : ℚ) / ((pre ++ P :: post).length : ℚ) * 100)) ++
      (List.range' (pre.length + 2) post.length).map
        (fun k => jsRound ((k : ℚ) / ((pre ++ P :: post).length : ℚ) * 100)) := by
  set n := (pre ++ P :: post).length with hn
  have hmkP : mkResult P = none := by
    unfold mkResult
    rw [hP]
    rfl
  have hcol : (processFrom n 0 (pre ++ P :: post)).1 =
      pre.filterMap mkResult ++ post.filterMap mkResult := by
    rw [processFrom_fst, List.filterMap_append, List.filterMap_cons, hmkP]
  have hperm : ((runBatch (pre ++ P :: post)).1).Perm
      (processFrom n 0 (pre ++ P :: post)).1 :=
    List.mergeSort_perm _ _
  refine ⟨?_, ?_, ?_⟩
  · rw [hperm.length_eq, hcol, List.length_append,
      filterMap_mkResult_length pre hpre, filterMap_mkResult_length post hpost]
    simp [hn]
  · intro hmem
    rw [List.Perm.mem_iff (hperm.map (fun r => r.photoId))] at hmem
    rcases List.mem_map.mp hmem with ⟨r, hr, hrid⟩
    rw [hcol] at hr
    have : ∃ q ∈ pre ++ post, mkResult q = some r := by
      rcases List.mem_append.mp hr with h | h
      · rcases List.mem_filterMap.mp h with ⟨q, hq, hqr⟩
        exact ⟨q, List.mem_append_left post hq, hqr⟩
      · rcases List.mem_filterMap.mp h with ⟨q, hq, hqr⟩
        exact ⟨q, List.mem_append_right pre hq, hqr⟩
    rcases this with ⟨q, hq, hqr⟩
    exact hid q hq (by rw [← mkResult_photoId hqr, hrid])
  · have hsplit := processFrom_append n pre (P :: post) 0
    have hsnd : (processFrom n (0 + pre.length) (P :: post)).2 =
        (processFrom n (0 + pre.length + 1) post).2 := by
      simp only [processFrom, hmkP]
    rw [show (runBatch (pre ++ P :: post)).2 = (processFrom n 0 (pre ++ P :: post)).2 from rfl,
      hsplit]
    simp only [hsnd, processFrom_snd_success n pre hpre 0,
      processFrom_snd_success n post hpost (0 + pre.length + 1)]
    have h2 : 0 + pre.length + 1 + 1 = pre.length + 2 := by omega
    rw [h2]

/-- C3 witness batch: one success, one failure, one success. -/
def skipBatchW : List PhotoSubmission :=
  [⟨0, some (tqW, aeW, feW0)⟩, ⟨1, none⟩, ⟨2, some (tqW, aeW, feW1)⟩]

/-- C3 witness: the amended skip semantics at a concrete 3-photo batch with
the middle photo failing. -/
theorem claim3_skip_semantics_witness :
    (runBatch skipBatchW).1.length = skipBatchW.length - 1 ∧
    (1 : ℕ) ∉ (runBatch skipBatchW).1.map (fun r => r.photoId) ∧
    (runBatch skipBatchW).2 =
      (List.range' 1 1).map (fun k => jsRound ((k : ℚ) / ((3 : ℕ) : ℚ) * 100)) ++
      (List.range' 3 1).map (fun k => jsRound ((k : ℚ) / ((3 : ℕ) : ℚ) * 100)) :=
  claim3_skip_semantics [⟨0, some (tqW, aeW, feW0)⟩] [⟨2, some (tqW, aeW, feW1)⟩]
    ⟨1, none⟩ rfl (by decide) (by decide) (by decide)

/-- The comparator relation of the final sort is transitive (on the Bool
side used by `List.mergeSort`). -/
theorem sortResults_le_trans (a b c : AnalysisResult)
    (hab : decide (b.overallScore ≤ a.overallScore) = true)
    (hbc : decide (c.overallScore ≤ b.overallScore) = true) :
    decide (c.overallScore ≤ a.overallScore) = true :=
  decide_eq_true (le_trans (of_decide_eq_true hbc) (of_decide_eq_true hab))

/-- The comparator relation of the final sort is total. -/
theorem sortResults_le_total (a b : AnalysisResult) :
    (decide (b.overallScore ≤ a.overallScore) ||
      decide (a.overallScore ≤ b.overallScore)) = true := by
  rcases le_total b.overallScore a.overallScore with h | h
  · rw [decide_eq_true h]
    rfl
  · rw [decide_eq_true h]
    simp

/-- C4: the delivered batch result is sorted by `overallScore` descending —
every adjacent pair satisfies `result[i].overallScore ≥ result[i+1].overallScore` —
and the sort is stable: two collected results with equal `overallScore`
that stood in a given order in the collected (input-order) list stand in
the same order in the ranked output. -/
theorem claim4_ranked_sorted_stable (photos : List PhotoSubmission) (a b : AnalysisResult) :
    List.Chain' (fun u v => v.overallScore ≤ u.overallScore) (runBatch photos).1 ∧
    (List.Sublist [a, b] (processFrom photos.length 0 photos).1 →
      a.overallScore = b.overallScore →
      List.Sublist [a, b] (runBatch photos).1) := by
  constructor
  · have hpair := @List.sorted_mergeSort AnalysisResult
      (fun u v => decide (v.overallScore ≤ u.overallScore))
      sortResults_le_trans sortResults_le_total (processFrom photos.length 0 photos).1
    exact (hpair.imp (fun h => of_decide_eq_true h)).chain'
  · intro hsub heq
    refine List.mergeSort_stable sortResults_le_trans sortResults_le_total ?_ hsub
    refine List.pairwise_cons.mpr ⟨?_, List.pairwise_singleton _ _⟩
    intro c hc
    rcases List.mem_singleton.mp hc with rfl
    exact decide_eq_true (le_of_eq heq.symm)

/-- C4 witness batch: two tied photos (ids 0, 1) followed by a
higher-scoring one (id 2). -/
def tieBatchW : List PhotoSubmission :=
  [⟨0, some (tqW, aeW, feW0)⟩, ⟨1, some (tqW, aeW, feW0)⟩, ⟨2, some (tqW, aeW, feW1)⟩]

/-- The collected result of the first tied photo. -/
def tieResA : AnalysisResult :=
  { photoId := 0
    technicalQuality := tqW
    aesthetics := aeW
    faceExpressions := feW0
    overallScore := calculateOverallScore tqW aeW feW0 }

/-- The collected result of the second tied photo. -/
def tieResB : AnalysisResult :=
  { photoId := 1
    technicalQuality := tqW
    aesthetics := aeW
    faceExpressions := feW0
    overallScore := calculateOverallScore tqW aeW feW0 }

/-- C4 witness: the ordering and stability facts at a concrete batch with a
tie. -/
theorem claim4_ranked_sorted_stable_witness :
    List.Chain' (fun u v => v.overallScore ≤ u.overallScore) (runBatch tieBatchW).1 ∧
    List.Sublist [tieResA, tieResB] (runBatch tieBatchW).1 :=
  ⟨(claim4_ranked_sorted_stable tieBatchW tieResA tieResB).1,
   (claim4_ranked_sorted_stable tieBatchW tieResA tieResB).2 (by decide) rfl⟩

end PhotoAnalyzer
